import Mathlib

/-!
Verification development for the status / staging / remote-sync core of a
terminal git client (source: src/git.rs and src/app.rs).

The Rust code is shallowly embedded: git object ids are natural numbers,
paths are strings, the repository's three snapshots (HEAD tree, index,
working tree) are association lists, and every fallible operation returns
an `Except` value.  External engine primitives used by the code (libgit2
`statuses`, `revwalk`, `merge_base`, `merge_trees`; the gix status
iterator) are modelled by executable functions that realise their
documented semantics; all control flow around them is translated directly
from the source.
-/

set_option maxRecDepth 4096

/-- Mirror of `FileStatusType` in src/git.rs. -/
inductive FileStatusType where
  | Modified
  | Added
  | Deleted
  | Untracked
  | Renamed (from_path : String)
  | TypeChange
deriving DecidableEq

/-- Mirror of `GitFileStatus` in src/git.rs.  The `file_size` field of the
source is read from filesystem metadata purely for display and is not
modelled. -/
structure GitFileStatus where
  path : String
  status : FileStatusType
  staged : Bool
deriving DecidableEq

/-- Mirror of `SyncOperationType` in src/git.rs. -/
inductive SyncOperationType where
  | Fetch
  | Pull
  | Push
  | Refresh
deriving DecidableEq

/-- Mirror of `OperationStatus` in src/git.rs. -/
inductive OperationStatus where
  | Pending
  | InProgress
  | Success
  | Error
deriving DecidableEq

/-- Mirror of `SyncOperation` in src/git.rs; `std::time::SystemTime` is
modelled as a natural number. -/
structure SyncOperation where
  operation_type : SyncOperationType
  status : OperationStatus
  message : String
  timestamp : Nat
deriving DecidableEq

/-- Mirror of `GitError` in src/git.rs; the wrapped foreign error values
are modelled by their display strings. -/
inductive GitError where
  | Gix (msg : String)
  | Git2 (msg : String)
  | IoFail (msg : String)
  | Other (msg : String)
deriving DecidableEq

/-- Mirror of the `Display` implementation for `GitError` in src/git.rs. -/
def errString : GitError → String
  | .Gix m => "Gix error: " ++ m
  | .Git2 m => "Git2 error: " ++ m
  | .IoFail m => "IO error: " ++ m
  | .Other m => "Git error: " ++ m

/-- Association-list lookup used throughout the model (first binding of a
key wins, matching the behaviour of the maps in the source). -/
def lookupA {κ α : Type} [DecidableEq κ] : List (κ × α) → κ → Option α
  | [], _ => none
  | (k, v) :: rest, x => if k = x then some v else lookupA rest x

deriving instance DecidableEq for Except

/-- Whether an `Except` value is the `ok` case. -/
def isOkE {ε α : Type} : Except ε α → Bool
  | .ok _ => true
  | .error _ => false

/-- An index (or HEAD-tree) entry: repository-relative path, object id and
file mode, matching the data git2/gix store per entry. -/
structure Entry where
  path : String
  id : Nat
  mode : Nat
deriving DecidableEq

/-- The repository state seen by the status and staging code: the HEAD
tree flattened to entries (`none` for an unborn branch), the live index,
and the working tree as a map from path to content id. -/
structure Repo where
  head : Option (List Entry)
  index : List Entry
  worktree : List (String × Nat)
deriving DecidableEq

/-- HEAD tree entries, empty when the branch is unborn. -/
def headEntries (r : Repo) : List Entry := r.head.getD []

/-- Find the entry for a path in an entry list. -/
def findEntry (es : List Entry) (p : String) : Option Entry :=
  es.find? (fun e => e.path == p)

/-- Per-path status flags as reported by `git2::Repository::statuses`. -/
structure StatusFlags where
  index_new : Bool
  index_modified : Bool
  index_deleted : Bool
  wt_new : Bool
  wt_modified : Bool
  wt_deleted : Bool
deriving DecidableEq

/-- Model of the per-path flag computation of `git2::Repository::statuses`:
the HEAD/index comparison yields the index flags, the index/worktree
comparison yields the worktree flags. -/
def statusFlagsOf (r : Repo) (p : String) : StatusFlags :=
  let ih := findEntry (headEntries r) p
  let ii := findEntry r.index p
  let iw := lookupA r.worktree p
  { index_new := ii.isSome && ih.isNone
  , index_modified :=
      match ii, ih with
      | some e, some h => e.id != h.id || e.mode != h.mode
      | _, _ => false
  , index_deleted := ih.isSome && ii.isNone
  , wt_new := iw.isSome && ii.isNone
  , wt_modified :=
      match ii, iw with
      | some e, some c => e.id != c
      | _, _ => false
  , wt_deleted := ii.isSome && iw.isNone }

/-- A path has some status bit set. -/
def hasAnyFlag (f : StatusFlags) : Bool :=
  f.index_new || f.index_modified || f.index_deleted ||
  f.wt_new || f.wt_modified || f.wt_deleted

/-- All paths known to any of the three snapshots. -/
def allPaths (r : Repo) : List String :=
  ((headEntries r).map (fun e => e.path) ++ r.index.map (fun e => e.path)
    ++ r.worktree.map (fun e => e.1)).dedup

/-- Model of `git2::Repository::statuses(None)`: every path with at least
one flag set, paired with its flags. -/
def repoStatuses (r : Repo) : List (String × StatusFlags) :=
  (allPaths r).filterMap (fun p =>
    let f := statusFlagsOf r p
    if hasAnyFlag f then some (p, f) else none)

/-- The status-entry search loop at the top of `unstage_file`
(src/git.rs:496-511): find this path in the statuses list. -/
def findStatus (r : Repo) (p : String) : Option StatusFlags :=
  ((repoStatuses r).find? (fun e => e.1 == p)).map (fun e => e.2)

/-- Model of `git2::Index::remove_path`: drop the entry for the path. -/
def removePath (es : List Entry) (p : String) : List Entry :=
  es.filter (fun e => e.path != p)

/-- Core of `unstage_file` (src/git.rs:488-579) on an opened repository,
translated branch by branch:
newly added entries are removed; index-modified or index-deleted entries
are reset to HEAD's object id and mode (remove then add, as the source
does); a path absent from the statuses list is left untouched; every
failure to reach a HEAD tree entry (unborn branch included) falls back to
removal. -/
def unstage_file_repo (r : Repo) (p : String) : Repo :=
  match findStatus r p with
  | none => r
  | some st =>
    if st.index_new then
      { r with index := removePath r.index p }
    else if st.index_modified || st.index_deleted then
      match r.head with
      | some hs =>
        match findEntry hs p with
        | some te =>
          { r with index :=
              removePath r.index p ++ [{ path := p, id := te.id, mode := te.mode }] }
        | none => { r with index := removePath r.index p }
      | none => { r with index := removePath r.index p }
    else r

/-- `unstage_file` including the `git2::Repository::open(".")` step: the
filesystem either holds an openable repository (`some r`) or not. -/
def unstage_file (fs : Option Repo) (p : String) : Except GitError (Option Repo) :=
  match fs with
  | none => .error (GitError.Git2 ("could not open repository"))
  | some r => .ok (some (unstage_file_repo r p))

/-- `unstage_files` (src/git.rs:582-588): iterate `unstage_file` over the
paths, propagating the first error with the `?` operator.  The first
component records which paths were actually attempted. -/
def unstage_files (fs : Option Repo) :
    List String → List String × Except GitError (Option Repo)
  | [] => ([], .ok fs)
  | p :: rest =>
    match unstage_file fs p with
    | .error e => ([p], .error e)
    | .ok fs2 =>
      let t := unstage_files fs2 rest
      (p :: t.1, t.2)

/-- The staged-path snapshot collected by `unstage_all_files`
(src/git.rs:598-606). -/
def stagedPathsOf (r : Repo) : List String :=
  (repoStatuses r).filterMap (fun e =>
    if e.2.index_new || e.2.index_modified || e.2.index_deleted
    then some e.1 else none)

/-- `unstage_all_files` (src/git.rs:591-614): snapshot the staged paths,
then unstage each with the same error-propagating loop. -/
def unstage_all_files (fs : Option Repo) :
    List String × Except GitError (Option Repo) :=
  match fs with
  | none => ([], .error (GitError.Git2 ("could not open repository")))
  | some r => unstage_files (some r) (stagedPathsOf r)

/-- The unstaged pass of `get_git_status_pure_gix`: model of
`get_unstaged_changes_gix` (src/git.rs:314-344).  The gix index-worktree
iterator yields one item per path: a `Modification` for every tracked
entry whose worktree content differs (or is gone), mapped to `Modified`,
and untracked `DirectoryContents` items, mapped to `Untracked`. -/
def get_unstaged_changes_gix (r : Repo) : List GitFileStatus :=
  (r.index.filterMap (fun e =>
    match lookupA r.worktree e.path with
    | some c =>
      if e.id != c then
        some { path := e.path, status := FileStatusType.Modified, staged := false }
      else none
    | none =>
      some { path := e.path, status := FileStatusType.Modified, staged := false }))
  ++ (r.worktree.filterMap (fun w =>
    if (findEntry r.index w.1).isNone then
      some { path := w.1, status := FileStatusType.Untracked, staged := false }
    else none))

/-- `get_staged_files_initial_commit` (src/git.rs:291-312): with no HEAD
commit every index entry is a staged addition. -/
def get_staged_files_initial_commit (r : Repo) : List GitFileStatus :=
  r.index.map (fun e =>
    { path := e.path, status := FileStatusType.Added, staged := true })

/-- `get_staged_changes_gix` (src/git.rs:202-288): diff the live index
against the HEAD-derived index by object id; then report HEAD entries
missing from the live index as staged deletions. -/
def get_staged_changes_gix (r : Repo) : List GitFileStatus :=
  match r.head with
  | none => get_staged_files_initial_commit r
  | some hs =>
    (r.index.filterMap (fun e =>
      match findEntry hs e.path with
      | some h =>
        if e.id != h.id then
          some { path := e.path, status := FileStatusType.Modified, staged := true }
        else none
      | none =>
        some { path := e.path, status := FileStatusType.Added, staged := true }))
    ++ (hs.filterMap (fun h =>
      if (findEntry r.index h.path).isNone then
        some { path := h.path, status := FileStatusType.Deleted, staged := true }
      else none))

/-- The in-place merge step of `get_git_status_pure_gix`
(src/git.rs:178-187): mark the first record with this path as staged. -/
def setStagedFirst : List GitFileStatus → String → List GitFileStatus
  | [], _ => []
  | f :: fs, p =>
    if f.path = p then { f with staged := true } :: fs
    else f :: setStagedFirst fs p

/-- The merge loop of `get_git_status_pure_gix` (src/git.rs:177-187): for
each staged record, flip the staged bit of an existing record with the
same path, otherwise append the staged record. -/
def mergeStaged (files staged : List GitFileStatus) : List GitFileStatus :=
  staged.foldl (fun fs sf =>
    if fs.any (fun f => f.path == sf.path) then setStagedFirst fs sf.path
    else fs ++ [sf]) files

/-- `get_git_status_pure_gix` (src/git.rs:166-190): unstaged pass, staged
pass, then the merge loop. -/
def get_git_status_pure_gix (r : Repo) : List GitFileStatus :=
  mergeStaged (get_unstaged_changes_gix r) (get_staged_changes_gix r)

/-- The status-code table of the fallback parser (src/git.rs:381-398),
with the match arms in source order. -/
def matchCodes (i w : Char) : Option (FileStatusType × Bool) :=
  if i = 'A' then some (FileStatusType.Added, true)
  else if i = 'M' then some (FileStatusType.Modified, true)
  else if i = 'D' then some (FileStatusType.Deleted, true)
  else if i = 'R' then some (FileStatusType.Renamed (""), true)
  else if i = 'C' then some (FileStatusType.Added, true)
  else if i = 'T' then some (FileStatusType.TypeChange, true)
  else if w = 'M' then some (FileStatusType.Modified, false)
  else if w = 'D' then some (FileStatusType.Deleted, false)
  else if w = 'T' then some (FileStatusType.TypeChange, false)
  else if i = '?' && w = '?' then some (FileStatusType.Untracked, false)
  else none

/-- One iteration of the fallback parse loop (src/git.rs:364-406): skip
empty or short records, read the two status-code characters, take the
rest after the third character as the path, and drop records whose codes
match no arm. -/
def parseStatusRecord (line : String) : Option GitFileStatus :=
  if line.length < 3 then none
  else
    match matchCodes (line.data.getD 0 ' ') (line.data.getD 1 ' ') with
    | some sw => some { path := line.drop 3, status := sw.1, staged := sw.2 }
    | none => none

/-- `get_git_status_fallback` (src/git.rs:347-409) given the external
command's outcome: a non-zero exit propagates an error, otherwise the
NUL-separated records are parsed one by one. -/
def get_git_status_fallback (exitSuccess : Bool) (stderrText : String)
    (records : List String) : Except String (List GitFileStatus) :=
  if exitSuccess then .ok (records.filterMap parseStatusRecord)
  else .error ("Failed to get git status: " ++ stderrText)

/-- A commit object: parent ids and the commit's tree flattened to a map
from path to blob id. -/
structure CommitObj where
  parents : List Nat
  tree : List (String × Nat)
deriving DecidableEq

/-- Repository state seen by the remote-sync code.  `headOid = none`
models an unborn branch (both `repo.head()` failing and `head.target()`
being empty collapse to this).  The boolean and string fields resolve the
outcomes of the external transport: whether the git2 fetch succeeds,
whether the fallback `git fetch` command succeeds (with its stderr text),
and whether the push transport succeeds (with its error text). -/
structure SyncRepo where
  commits : List (Nat × CommitObj)
  headBranch : String
  headOid : Option Nat
  remoteBranches : List (String × Nat)
  originUrl : Option String
  fetchGit2Ok : Bool
  fetchCmdOk : Bool
  fetchErr : String
  pushTransportOk : Bool
  pushErr : String
  now : Nat
deriving DecidableEq

/-- Parent ids of a commit; empty for an unknown id. -/
def parentsOf (r : SyncRepo) (x : Nat) : List Nat :=
  ((lookupA r.commits x).map (fun c => c.parents)).getD []

/-- One expansion step of the commit walk: keep the current ids and add
every parent, deduplicated. -/
def stepSet (r : SyncRepo) (s : List Nat) : List Nat :=
  (s ++ (s.map (parentsOf r)).flatten).dedup

/-- Iterate the walk expansion a fixed number of times. -/
def walkN (r : SyncRepo) : Nat → List Nat → List Nat
  | 0, s => s
  | k + 1, s => walkN r k (stepSet r s)

/-- Model of the external `revwalk` pushed at one id: all ids reachable
from `x`.  Iterating `x + 1` times saturates because in a well-formed
history every parent id is smaller than its child id. -/
def walkList (r : SyncRepo) (x : Nat) : List Nat :=
  walkN r (x + 1) [x]

/-- Model of the external `merge_base` primitive: the first id in walk
order from `a` that is also reachable from `b`. -/
def mergeBase (r : SyncRepo) (a b : Nat) : Option Nat :=
  (walkList r a).find? (fun x => (walkList r b).contains x)

/-- Tree paths of a flattened tree. -/
def treePaths (t : List (String × Nat)) : List String := t.map (fun e => e.1)

/-- Model of the external `merge_trees` primitive: the standard per-path
three-way merge of base, local and remote trees.  Returns the merged
entries and whether any path conflicted (both sides changed it in
different ways). -/
def merge_trees (base localT remoteT : List (String × Nat)) :
    List (String × Nat) × Bool :=
  ((treePaths base ++ treePaths localT ++ treePaths remoteT).dedup).foldl
    (fun acc p =>
      let b := lookupA base p
      let l := lookupA localT p
      let m := lookupA remoteT p
      if l = m then
        match l with
        | some v => (acc.1 ++ [(p, v)], acc.2)
        | none => acc
      else if l = b then
        match m with
        | some v => (acc.1 ++ [(p, v)], acc.2)
        | none => acc
      else if m = b then
        match l with
        | some v => (acc.1 ++ [(p, v)], acc.2)
        | none => acc
      else (acc.1, true))
    ([], false)

/-- A fresh object id for a newly written commit (the model of hashing a
new commit object: distinct from every existing id). -/
def freshOid (r : SyncRepo) : Nat :=
  (r.commits.map (fun c => c.1)).foldr max 0 + 1

/-- `perform_merge` (src/git.rs:1124-1168): look up the remote, local and
merge-base commits, three-way merge their trees, fail with a
"Merge conflicts detected" error on conflicts, and otherwise write a
commit whose parents are the local and remote tips and advance HEAD. -/
def perform_merge (r : SyncRepo) (remoteOid : Nat) : Except GitError SyncRepo :=
  match lookupA r.commits remoteOid with
  | none => .error (GitError.Git2 ("remote commit not found"))
  | some remoteCommit =>
    match r.headOid with
    | none => .error (GitError.Git2 ("no HEAD"))
    | some localOid =>
      match lookupA r.commits localOid with
      | none => .error (GitError.Git2 ("local commit not found"))
      | some localCommit =>
        match mergeBase r localOid remoteOid with
        | none => .error (GitError.Git2 ("no merge base found"))
        | some baseOid =>
          match lookupA r.commits baseOid with
          | none => .error (GitError.Git2 ("base commit not found"))
          | some baseCommit =>
            let m := merge_trees baseCommit.tree localCommit.tree remoteCommit.tree
            if m.2 then .error (GitError.Other ("Merge conflicts detected"))
            else
              .ok { r with
                commits :=
                  (freshOid r, { parents := [localOid, remoteOid], tree := m.1 })
                    :: r.commits,
                headOid := some (freshOid r) }

/-- `perform_rebase` (src/git.rs:1080-1121): find the merge base, then
replay each local-only commit (oldest first) on top of the remote tip;
each replay three-way merges the commit against its first parent and the
current tip and fails on conflicts. -/
def perform_rebase (r : SyncRepo) (localOid remoteOid : Nat) :
    Except GitError SyncRepo :=
  match mergeBase r localOid remoteOid with
  | none => .error (GitError.Git2 ("no merge base found"))
  | some baseOid =>
    let locals :=
      ((walkList r localOid).filter
        (fun x => !((walkList r baseOid).contains x))).reverse
    locals.foldlM
      (fun acc c =>
        match lookupA acc.commits c, acc.headOid with
        | some co, some tip =>
          match lookupA acc.commits tip with
          | some tipCo =>
            let parentTree :=
              ((co.parents.head?.bind (lookupA acc.commits)).map
                (fun pc => pc.tree)).getD []
            let m := merge_trees parentTree co.tree tipCo.tree
            if m.2 then .error (GitError.Other ("conflicts while rebasing"))
            else
              .ok { acc with
                commits := (freshOid acc, { parents := [tip], tree := m.1 })
                  :: acc.commits,
                headOid := some (freshOid acc) }
          | none => .error (GitError.Git2 ("tip commit not found"))
        | _, _ => .error (GitError.Git2 ("commit not found")))
      { r with headOid := some remoteOid }

/-- Whether an operation status is the `Error` case (the
`matches!(…, OperationStatus::Error)` tests in the source). -/
def statusIsError : OperationStatus → Bool
  | .Error => true
  | _ => false

/-- `fetch_origin` (src/git.rs:902-990): try the git2 transport, fall
back to the external `git fetch origin` command, and report a failed
fallback as an Error operation rather than a raised error. -/
def fetch_origin (r : SyncRepo) : SyncOperation :=
  if r.fetchGit2Ok then
    { operation_type := .Fetch, status := .Success,
      message := "Successfully fetched from remote", timestamp := r.now }
  else if r.fetchCmdOk then
    { operation_type := .Fetch, status := .Success,
      message := "Successfully fetched from remote (fallback)", timestamp := r.now }
  else
    { operation_type := .Fetch, status := .Error,
      message := "Failed to fetch: " ++ r.fetchErr, timestamp := r.now }

/-- `pull_origin` (src/git.rs:993-1077): fetch first and abort on a fetch
error; resolve the local and remote-tracking tips; report "Already up to
date" when they coincide; otherwise rebase or merge, converting a
`perform_rebase`/`perform_merge` error into an Error operation. -/
def pull_origin (useRebase : Bool) (r : SyncRepo) :
    Except GitError (SyncOperation × SyncRepo) :=
  let fres := fetch_origin r
  if statusIsError fres.status then
    .ok ({ operation_type := .Pull, status := .Error,
           message := "Pull failed during fetch: " ++ fres.message,
           timestamp := r.now }, r)
  else
    match r.headOid with
    | none => .error (GitError.Other ("No HEAD commit"))
    | some localOid =>
      match lookupA r.remoteBranches ("origin/" ++ r.headBranch) with
      | none =>
        .ok ({ operation_type := .Pull, status := .Error,
               message := "No remote tracking branch found",
               timestamp := r.now }, r)
      | some remoteOid =>
        if localOid = remoteOid then
          .ok ({ operation_type := .Pull, status := .Success,
                 message := "Already up to date", timestamp := r.now }, r)
        else if useRebase then
          match perform_rebase r localOid remoteOid with
          | .ok r2 =>
            .ok ({ operation_type := .Pull, status := .Success,
                   message := "Successfully rebased local changes",
                   timestamp := r.now }, r2)
          | .error e =>
            .ok ({ operation_type := .Pull, status := .Error,
                   message := "Rebase failed: " ++ errString e,
                   timestamp := r.now }, r)
        else
          match perform_merge r remoteOid with
          | .ok r2 =>
            .ok ({ operation_type := .Pull, status := .Success,
                   message := "Successfully merged remote changes",
                   timestamp := r.now }, r2)
          | .error e =>
            .ok ({ operation_type := .Pull, status := .Error,
                   message := "Merge failed: " ++ errString e,
                   timestamp := r.now }, r)

/-- `push_origin` (src/git.rs:1171-1228): open the repository, look up
the origin remote with the `?` operator (so a missing remote propagates
an `Err`), resolve HEAD, then push; a transport or authentication
failure becomes an Error operation value. -/
def push_origin (r : SyncRepo) : Except GitError SyncOperation :=
  match r.originUrl with
  | none => .error (GitError.Git2 ("remote origin not found"))
  | some _ =>
    match r.headOid with
    | none => .error (GitError.Git2 ("reference not found"))
    | some _ =>
      if r.pushTransportOk then
        .ok { operation_type := .Push, status := .Success,
              message := "Successfully pushed to remote", timestamp := r.now }
      else
        .ok { operation_type := .Push, status := .Error,
              message := "Failed to push: " ++ r.pushErr, timestamp := r.now }

/-- `get_ahead_behind_counts` (src/git.rs:814-845): with a remote
tracking branch, count the commits on each side only via the walk sets
(the external `graph_ahead_behind`); with none, count every commit
reachable from HEAD and report zero behind. -/
def get_ahead_behind_counts (r : SyncRepo) : Except GitError (Nat × Nat) :=
  match r.headOid with
  | none => .error (GitError.Other ("No HEAD commit"))
  | some localOid =>
    match lookupA r.remoteBranches ("origin/" ++ r.headBranch) with
    | some remoteOid =>
      let la := walkList r localOid
      let ra := walkList r remoteOid
      .ok ((la.filter (fun x => !(ra.contains x))).length,
           (ra.filter (fun x => !(la.contains x))).length)
    | none => .ok ((walkList r localOid).length, 0)

/-- Reachability in the commit graph: `Reaches r a b` holds when `b` is
`a` itself or an iterated parent of `a`. -/
inductive Reaches (r : SyncRepo) : Nat → Nat → Prop where
  | refl (a : Nat) : Reaches r a a
  | tail {a b c : Nat} : Reaches r a b → c ∈ parentsOf r b → Reaches r a c

/-- Reachability counting the number of parent steps taken. -/
inductive ReachesN (r : SyncRepo) : Nat → Nat → Nat → Prop where
  | refl (a : Nat) : ReachesN r 0 a a
  | tail {n a b c : Nat} :
      ReachesN r n a b → c ∈ parentsOf r b → ReachesN r (n + 1) a c

/-- Well-formed history: every recorded parent id is strictly smaller
than its child id (object ids in creation order). -/
def ParentsDecreasing (r : SyncRepo) : Prop :=
  ∀ pc ∈ r.commits, ∀ p ∈ pc.2.parents, p < pc.1

instance (r : SyncRepo) : Decidable (ParentsDecreasing r) := by
  unfold ParentsDecreasing; infer_instance

/-- `add_sync_operation` (src/app.rs:438-444): insert the operation at
the front of the recent-operations list and truncate it to 10 entries. -/
def add_sync_operation (ops : List SyncOperation) (op : SyncOperation) :
    List SyncOperation :=
  if (op :: ops).length > 10 then (op :: ops).take 10 else op :: ops

/-- Well-formed snapshot state: each of the three snapshots lists every
path at most once (git guarantees this for trees, the index and the
working directory). -/
def RepoWF (r : Repo) : Prop :=
  (r.index.map Entry.path).Nodup ∧ (r.worktree.map Prod.fst).Nodup ∧
  ((headEntries r).map Entry.path).Nodup

instance (r : Repo) : Decidable (RepoWF r) := by
  unfold RepoWF; infer_instance

/-- Concrete repository used by witnesses: path a is committed with blob
id 1 and staged with blob id 2, the working tree matches the index. -/
def rwMod : Repo :=
  { head := some [{ path := "a", id := 1, mode := 100 }],
    index := [{ path := "a", id := 2, mode := 100 }],
    worktree := [("a", 2)] }

/-- Concrete sync repository used by witnesses: base commit 1, local tip
2 and remote tip 3 both edit path f differently (a conflicting pair). -/
def repoBase : SyncRepo :=
  { commits := [(1, { parents := [], tree := [("f", 1)] }),
                (2, { parents := [1], tree := [("f", 2)] }),
                (3, { parents := [1], tree := [("f", 3)] })],
    headBranch := "main", headOid := some 2,
    remoteBranches := [("origin/main", 3)],
    originUrl := some ("file:///tmp/origin"),
    fetchGit2Ok := true, fetchCmdOk := false, fetchErr := "",
    pushTransportOk := true, pushErr := "connection refused", now := 0 }

/-- Variant of `repoBase` whose remote tip edits a different path, so the
three-way merge is conflict-free. -/
def repoClean : SyncRepo :=
  { repoBase with
    commits := [(1, { parents := [], tree := [("f", 1)] }),
                (2, { parents := [1], tree := [("f", 2)] }),
                (3, { parents := [1], tree := [("f", 1), ("g", 9)] })] }

/-- Variant of `repoBase` with no origin remote configured. -/
def repoNoOrigin : SyncRepo := { repoBase with originUrl := none }

/-- Variant of `repoBase` whose push transport fails (unreachable remote). -/
def repoUnreachable : SyncRepo := { repoBase with pushTransportOk := false }

/-- Variant of `repoBase` whose remote tracking tip equals the local tip. -/
def repoUpToDate : SyncRepo := { repoBase with remoteBranches := [("origin/main", 2)] }

/-- Variant of `repoBase` with no remote tracking branch at all. -/
def repoNoTracking : SyncRepo := { repoBase with remoteBranches := [] }

theorem lookupA_mem {κ α : Type} [DecidableEq κ] {l : List (κ × α)} {k : κ} {v : α}
    (h : lookupA l k = some v) : (k, v) ∈ l := by
  induction l with
  | nil => simp [lookupA] at h
  | cons kv rest ih =>
    obtain ⟨k0, v0⟩ := kv
    by_cases hk : k0 = k
    · subst hk
      simp [lookupA] at h
      simp [h]
    · simp [lookupA, hk] at h
      exact List.mem_cons_of_mem _ (ih h)

theorem find?_append_of_none {α : Type} {q : α → Bool} {l1 l2 : List α}
    (h : List.find? q l1 = none) :
    List.find? q (l1 ++ l2) = List.find? q l2 := by
  rw [List.find?_append, h, Option.none_or]

theorem findEntry_removePath (es : List Entry) (p : String) :
    findEntry (removePath es p) p = none := by
  unfold findEntry removePath
  rw [List.find?_eq_none]
  intro e he
  have := (List.mem_filter.mp he).2
  simp only [bne_iff_ne, ne_eq] at this
  simp [this]

theorem findEntry_removePath_append {es : List Entry} {p : String} {e : Entry}
    (he : e.path = p) :
    findEntry (removePath es p ++ [e]) p = some e := by
  unfold findEntry at *
  rw [find?_append_of_none (findEntry_removePath es p)]
  simp [List.find?_cons, he]

theorem findStatus_some {r : Repo} {p : String} {st : StatusFlags}
    (h : findStatus r p = some st) :
    st = statusFlagsOf r p ∧ hasAnyFlag st = true := by
  unfold findStatus at h
  cases hfind : (repoStatuses r).find? (fun e => e.1 == p) with
  | none => rw [hfind] at h; simp at h
  | some e =>
    rw [hfind] at h
    simp only [Option.map_some'] at h
    have hp := List.find?_some hfind
    simp only [beq_iff_eq] at hp
    have hmem := List.mem_of_find?_eq_some hfind
    unfold repoStatuses at hmem
    rw [List.mem_filterMap] at hmem
    obtain ⟨q, _, hEq⟩ := hmem
    by_cases hf : hasAnyFlag (statusFlagsOf r q) = true
    · simp only [hf, if_true] at hEq
      cases hEq
      cases h
      simp_all
    · simp only [hf] at hEq
      simp at hEq

theorem mem_allPaths_of_index {r : Repo} {e : Entry}
    (he : e ∈ r.index) : e.path ∈ allPaths r := by
  unfold allPaths
  rw [List.mem_dedup]
  rw [List.mem_append, List.mem_append]
  exact Or.inl (Or.inr (List.mem_map_of_mem _ he))

theorem findStatus_of_flag {r : Repo} {p : String}
    (hmem : p ∈ allPaths r) (hf : hasAnyFlag (statusFlagsOf r p) = true) :
    findStatus r p = some (statusFlagsOf r p) := by
  unfold findStatus
  cases hfind : (repoStatuses r).find? (fun e => e.1 == p) with
  | none =>
    rw [List.find?_eq_none] at hfind
    have hin : (p, statusFlagsOf r p) ∈ repoStatuses r := by
      unfold repoStatuses
      rw [List.mem_filterMap]
      exact ⟨p, hmem, by rw [if_pos hf]⟩
    have := hfind _ hin
    simp at this
  | some e =>
    have hp := List.find?_some hfind
    simp only [beq_iff_eq] at hp
    have hmem2 := List.mem_of_find?_eq_some hfind
    unfold repoStatuses at hmem2
    rw [List.mem_filterMap] at hmem2
    obtain ⟨q, _, hEq⟩ := hmem2
    by_cases hfq : hasAnyFlag (statusFlagsOf r q) = true
    · simp only [hfq, if_true] at hEq
      cases hEq
      simp only [Option.map_some']
      simp_all
    · simp only [hfq] at hEq
      simp at hEq

theorem index_new_false_of_mod_or_del {r : Repo} {p : String}
    (h : ((statusFlagsOf r p).index_modified || (statusFlagsOf r p).index_deleted) = true) :
    (statusFlagsOf r p).index_new = false := by
  unfold statusFlagsOf at *
  cases hii : findEntry r.index p <;>
    cases hih : findEntry (headEntries r) p <;>
    simp_all

/-- C1: `unstage_file` follows the safety decision table: an index-new
path is removed from the index; an index-modified or index-deleted path
whose HEAD tree holds an entry is reset to HEAD's object id and mode and
stays present; a path absent from the statuses list is a successful
no-op; and with no HEAD commit a staged path is removed as in the Added
case. -/
theorem unstage_follows_decision_table (r : Repo) (p : String) :
    (∀ st, findStatus r p = some st → st.index_new = true →
        findEntry (unstage_file_repo r p).index p = none)
  ∧ (∀ st hs te, findStatus r p = some st →
        (st.index_modified || st.index_deleted) = true →
        r.head = some hs → findEntry hs p = some te →
        findEntry (unstage_file_repo r p).index p =
          some { path := p, id := te.id, mode := te.mode })
  ∧ (findStatus r p = none → unstage_file (some r) p = Except.ok (some r))
  ∧ (∀ e, r.head = none → findEntry r.index p = some e →
        findEntry (unstage_file_repo r p).index p = none) := by
  refine ⟨?_, ?_, ?_, ?_⟩
  · intro st h hnew
    unfold unstage_file_repo
    rw [h]
    simp only [hnew, if_true]
    exact findEntry_removePath _ _
  · intro st hs te h hmod hhead hte
    have hflag := (findStatus_some h).1
    have hnew : st.index_new = false := by
      rw [hflag]
      exact index_new_false_of_mod_or_del (by rw [← hflag]; exact hmod)
    unfold unstage_file_repo
    rw [h]
    simp only [hnew, Bool.false_eq_true, if_false, hmod, if_true, hhead, hte]
    exact findEntry_removePath_append rfl
  · intro h
    simp only [unstage_file, unstage_file_repo, h]
  · intro e hhead he
    have hep : e.path = p := by
      have := List.find?_some he
      simpa [beq_iff_eq] using this
    have hmem : p ∈ allPaths r := by
      rw [← hep]
      exact mem_allPaths_of_index (List.mem_of_find?_eq_some he)
    have hflagval : (statusFlagsOf r p).index_new = true := by
      unfold statusFlagsOf
      have hnil : headEntries r = [] := by unfold headEntries; rw [hhead]; rfl
      simp [hnil, findEntry, he]
      exact ⟨e, List.mem_of_find?_eq_some he, hep⟩
    have hany : hasAnyFlag (statusFlagsOf r p) = true := by
      unfold hasAnyFlag
      rw [hflagval]
      simp
    have hfs := findStatus_of_flag hmem hany
    unfold unstage_file_repo
    rw [hfs]
    simp only [hflagval, if_true]
    exact findEntry_removePath _ _

/-- Witness for C1 at the concrete repository `rwMod`: path a is
index-modified (index id 2, HEAD id 1), so unstaging resets the index
entry to HEAD's id and mode without removing it. -/
theorem unstage_follows_decision_table_witness :
    findEntry (unstage_file_repo rwMod ("a")).index ("a") =
      some { path := "a", id := 1, mode := 100 } :=
  (unstage_follows_decision_table rwMod ("a")).2.1
    { index_new := false, index_modified := true, index_deleted := false,
      wt_new := false, wt_modified := false, wt_deleted := false }
    [{ path := "a", id := 1, mode := 100 }] { path := "a", id := 1, mode := 100 }
    (by decide) (by decide) rfl (by decide)

/-- C9: `unstage_file` mutates only the staging index: it opens the
repository, succeeds, and leaves the working tree and HEAD (hence every
branch ref) of the repository state untouched. -/
theorem unstage_mutates_only_index (r : Repo) (p : String) :
    unstage_file (some r) p = Except.ok (some (unstage_file_repo r p))
  ∧ (unstage_file_repo r p).worktree = r.worktree
  ∧ (unstage_file_repo r p).head = r.head := by
  refine ⟨rfl, ?_, ?_⟩ <;>
    (unfold unstage_file_repo; repeat' split) <;> rfl

/-- Counterexample for C3: with two paths to unstage and the first
attempt failing, only the first path is ever attempted, so the bulk
operation does not attempt every path in the snapshot. -/
theorem bulk_unstage_not_independent_cex :
    ¬ ((unstage_files none ["a", "b"]).1 = ["a", "b"]) := by decide

/-- C3 (amended): the first per-path failure aborts `unstage_files`: the
error is propagated and the remaining paths are not attempted; only when
every per-path call succeeds is every path attempted. -/
theorem bulk_unstage_aborts_on_first_error :
    (∀ (fs : Option Repo) (p : String) (rest : List String) (e : GitError),
        unstage_file fs p = Except.error e →
        unstage_files fs (p :: rest) = ([p], Except.error e))
  ∧ (∀ (r : Repo) (ps : List String),
        (unstage_files (some r) ps).1 = ps) := by
  constructor
  · intro fs p rest e h
    unfold unstage_files
    rw [h]
  · intro r ps
    induction ps generalizing r with
    | nil => rfl
    | cons p rest ih =>
      unfold unstage_files
      simp only [unstage_file]
      have := ih (unstage_file_repo r p)
      simp_all

/-- Witness for C3's amended theorem: a failing first path returns its
error and attempts nothing further, while on an openable repository all
paths are attempted. -/
theorem bulk_unstage_aborts_on_first_error_witness :
    unstage_files none ["a", "b"] =
      (["a"], Except.error (GitError.Git2 ("could not open repository")))
    ∧ (unstage_files (some rwMod) ["a", "b"]).1 = ["a", "b"] :=
  ⟨bulk_unstage_aborts_on_first_error.1 none ("a") ["b"]
      (GitError.Git2 ("could not open repository")) rfl,
   bulk_unstage_aborts_on_first_error.2 rwMod ["a", "b"]⟩

theorem map_filterMap_sublist {α β γ : Type} (f : α → Option β) (g : β → γ)
    (h : α → γ) (l : List α) (H : ∀ a b, f a = some b → g b = h a) :
    ((l.filterMap f).map g).Sublist (l.map h) := by
  induction l with
  | nil => simp
  | cons a l ih =>
    cases hfa : f a with
    | none =>
      rw [List.filterMap_cons, hfa, List.map_cons]
      exact List.Sublist.cons _ ih
    | some b =>
      rw [List.filterMap_cons, hfa, List.map_cons, List.map_cons, H a b hfa]
      exact List.Sublist.cons₂ _ ih

theorem unstaged_tracked_path {r : Repo} {e : Entry} {b : GitFileStatus}
    (hb : (match lookupA r.worktree e.path with
           | some c =>
             if e.id != c then
               some { path := e.path, status := FileStatusType.Modified, staged := false }
             else none
           | none =>
             some { path := e.path, status := FileStatusType.Modified, staged := false }) =
          some b) :
    b.path = e.path := by
  cases hlk : lookupA r.worktree e.path with
  | none => rw [hlk] at hb; cases hb; rfl
  | some c =>
    rw [hlk] at hb
    dsimp only at hb
    by_cases hid : (e.id != c) = true
    · rw [if_pos hid] at hb; cases hb; rfl
    · rw [if_neg hid] at hb; cases hb

theorem unstaged_untracked_path {r : Repo} {w : String × Nat} {b : GitFileStatus}
    (hb : (if (findEntry r.index w.1).isNone then
             some { path := w.1, status := FileStatusType.Untracked, staged := false }
           else none) = some b) :
    b.path = w.1 ∧ findEntry r.index w.1 = none := by
  split at hb
  · cases hb
    next hcond => exact ⟨rfl, Option.isNone_iff_eq_none.mp hcond⟩
  · cases hb

theorem nodup_unstaged {r : Repo} (h1 : (r.index.map Entry.path).Nodup)
    (h2 : (r.worktree.map Prod.fst).Nodup) :
    ((get_unstaged_changes_gix r).map (fun f => f.path)).Nodup := by
  unfold get_unstaged_changes_gix
  rw [List.map_append, List.nodup_append]
  refine ⟨?_, ?_, ?_⟩
  · exact List.Sublist.nodup
      (map_filterMap_sublist _ _ _ _ (fun a b hb => unstaged_tracked_path hb)) h1
  · exact List.Sublist.nodup
      (map_filterMap_sublist _ _ _ _ (fun a b hb => (unstaged_untracked_path hb).1)) h2
  · intro x hx1 hx2
    rw [List.mem_map] at hx1 hx2
    obtain ⟨b1, hb1, hpathx⟩ := hx1
    obtain ⟨b2, hb2, hpathx2⟩ := hx2
    rw [List.mem_filterMap] at hb1 hb2
    obtain ⟨e, he, hfe⟩ := hb1
    obtain ⟨w, _, hfw⟩ := hb2
    have he1 := unstaged_tracked_path hfe
    have hw1 := unstaged_untracked_path hfw
    have hnone : findEntry r.index w.1 = none := hw1.2
    unfold findEntry at hnone
    rw [List.find?_eq_none] at hnone
    have := hnone e he
    apply this
    rw [beq_iff_eq, ← hw1.1, hpathx2, ← hpathx, he1]

theorem staged_index_path {hs : List Entry} {e : Entry} {b : GitFileStatus}
    (hb : (match findEntry hs e.path with
           | some h =>
             if e.id != h.id then
               some { path := e.path, status := FileStatusType.Modified, staged := true }
             else none
           | none =>
             some { path := e.path, status := FileStatusType.Added, staged := true }) =
          some b) :
    b.path = e.path := by
  cases hlk : findEntry hs e.path with
  | none => rw [hlk] at hb; cases hb; rfl
  | some h0 =>
    rw [hlk] at hb
    dsimp only at hb
    by_cases hid : (e.id != h0.id) = true
    · rw [if_pos hid] at hb; cases hb; rfl
    · rw [if_neg hid] at hb; cases hb

theorem staged_deleted_path {r : Repo} {h : Entry} {b : GitFileStatus}
    (hb : (if (findEntry r.index h.path).isNone then
             some { path := h.path, status := FileStatusType.Deleted, staged := true }
           else none) = some b) :
    b.path = h.path ∧ findEntry r.index h.path = none := by
  split at hb
  · cases hb
    next hcond => exact ⟨rfl, Option.isNone_iff_eq_none.mp hcond⟩
  · cases hb

theorem nodup_staged {r : Repo} (h1 : (r.index.map Entry.path).Nodup)
    (h3 : ((headEntries r).map Entry.path).Nodup) :
    ((get_staged_changes_gix r).map (fun f => f.path)).Nodup := by
  unfold get_staged_changes_gix
  cases hh : r.head with
  | none =>
    unfold get_staged_files_initial_commit
    rw [List.map_map]
    exact h1
  | some hs =>
    have h3' : (hs.map Entry.path).Nodup := by
      unfold headEntries at h3
      rw [hh] at h3
      exact h3
    rw [List.map_append, List.nodup_append]
    refine ⟨?_, ?_, ?_⟩
    · exact List.Sublist.nodup
        (map_filterMap_sublist _ _ _ _ (fun a b hb => staged_index_path hb)) h1
    · exact List.Sublist.nodup
        (map_filterMap_sublist _ _ _ _ (fun a b hb => (staged_deleted_path hb).1)) h3'
    · intro x hx1 hx2
      rw [List.mem_map] at hx1 hx2
      obtain ⟨b1, hb1, hpathx⟩ := hx1
      obtain ⟨b2, hb2, hpathx2⟩ := hx2
      rw [List.mem_filterMap] at hb1 hb2
      obtain ⟨e, he, hfe⟩ := hb1
      obtain ⟨hd, _, hfd⟩ := hb2
      have he1 := staged_index_path hfe
      have hd1 := staged_deleted_path hfd
      have hnone : findEntry r.index hd.path = none := hd1.2
      unfold findEntry at hnone
      rw [List.find?_eq_none] at hnone
      have := hnone e he
      apply this
      rw [beq_iff_eq, ← hd1.1, hpathx2, ← hpathx, he1]

theorem setStagedFirst_paths (l : List GitFileStatus) (p : String) :
    (setStagedFirst l p).map (fun f => f.path) = l.map (fun f => f.path) := by
  induction l with
  | nil => rfl
  | cons f fs ih =>
    unfold setStagedFirst
    split
    · simp
    · simp [ih]

theorem mergeStaged_nodup : ∀ (staged files : List GitFileStatus),
    (files.map (fun f => f.path)).Nodup →
    ((mergeStaged files staged).map (fun f => f.path)).Nodup
  | [], files, h => by simpa [mergeStaged] using h
  | sf :: rest, files, h => by
    have hstep : mergeStaged files (sf :: rest) =
        mergeStaged
          (if files.any (fun f => f.path == sf.path) then setStagedFirst files sf.path
           else files ++ [sf]) rest := by
      unfold mergeStaged
      rw [List.foldl_cons]
    rw [hstep]
    apply mergeStaged_nodup rest
    split
    · rw [setStagedFirst_paths]
      exact h
    · next hany =>
      rw [List.map_append, List.nodup_append]
      refine ⟨h, List.nodup_singleton _, ?_⟩
      intro x hx1 hx2
      simp only [List.map_cons, List.map_nil, List.mem_singleton] at hx2
      subst hx2
      rw [List.mem_map] at hx1
      obtain ⟨b, hb, hbp⟩ := hx1
      apply hany
      rw [List.any_eq_true]
      exact ⟨b, hb, by rw [beq_iff_eq, hbp]⟩

theorem parseStatusRecord_path {l : String} {b : GitFileStatus}
    (hb : parseStatusRecord l = some b) : b.path = l.drop 3 := by
  unfold parseStatusRecord at hb
  split at hb
  · cases hb
  · cases hmc : matchCodes (l.data.getD 0 ' ') (l.data.getD 1 ' ') with
    | none => rw [hmc] at hb; cases hb
    | some sw => rw [hmc] at hb; cases hb; rfl

/-- C2: both status backends deliver at most one record per path: the
primary gix path merges staged records into existing unstaged records
rather than duplicating, and the fallback parser emits at most one
record per input record, so distinct record paths stay distinct. -/
theorem compute_status_unique_paths :
    (∀ r : Repo, RepoWF r →
        ((get_git_status_pure_gix r).map (fun f => f.path)).Nodup)
  ∧ (∀ (records : List String) (errText : String) (out : List GitFileStatus),
        (records.map (fun l => l.drop 3)).Nodup →
        get_git_status_fallback true errText records = Except.ok out →
        (out.map (fun f => f.path)).Nodup) := by
  constructor
  · intro r hwf
    unfold get_git_status_pure_gix
    exact mergeStaged_nodup _ _ (nodup_unstaged hwf.1 hwf.2.1)
  · intro records errText out hnd hok
    unfold get_git_status_fallback at hok
    rw [if_pos rfl] at hok
    cases hok
    exact List.Sublist.nodup
      (map_filterMap_sublist _ _ _ _ (fun a b hb => parseStatusRecord_path hb)) hnd

/-- Witness for C2: the concrete repository `rwMod` and a concrete
fallback record list both yield duplicate-free path lists. -/
theorem compute_status_unique_paths_witness :
    ((get_git_status_pure_gix rwMod).map (fun f => f.path)).Nodup
    ∧ (([{ path := "a", status := FileStatusType.Modified, staged := true },
         { path := "b", status := FileStatusType.Untracked, staged := false }] :
          List GitFileStatus).map (fun f => f.path)).Nodup :=
  ⟨compute_status_unique_paths.1 rwMod (by decide),
   compute_status_unique_paths.2 ["M  a", "?? b"] ("") _ (by decide) rfl⟩

/-- C10: a fallback record of length at least 3 whose two status-code
characters match no recognized combination is silently skipped: it
produces no record and no error, leaving the parsed list exactly as if
the record were absent. -/
theorem fallback_skips_unrecognized :
    ∀ (pre post : List String) (line errText : String),
      3 ≤ line.length →
      matchCodes (line.data.getD 0 ' ') (line.data.getD 1 ' ') = none →
      get_git_status_fallback true errText (pre ++ line :: post) =
        get_git_status_fallback true errText (pre ++ post) := by
  intro pre post line errText hlen hcode
  have hnone : parseStatusRecord line = none := by
    unfold parseStatusRecord
    rw [if_neg (by omega)]
    simp only [hcode]
  unfold get_git_status_fallback
  rw [if_pos rfl, if_pos rfl]
  rw [List.filterMap_append, List.filterMap_append, List.filterMap_cons, hnone]

/-- Witness for C10: the unmerged record with codes U and U is dropped by
the parser. -/
theorem fallback_skips_unrecognized_witness :
    get_git_status_fallback true ("") (["UU a", "?? b"]) =
      get_git_status_fallback true ("") (["?? b"]) :=
  fallback_skips_unrecognized [] ["?? b"] ("UU a") ("") (by decide) (by decide)

/-- C8: appending to the Operation Log inserts at the front and then
truncates to 10 entries dropping the oldest: the result is exactly the
first ten of the front-inserted list, so its length is at most 10 and
its first entry is the operation just appended. -/
theorem operation_log_capped (ops : List SyncOperation) (op : SyncOperation) :
    add_sync_operation ops op = (op :: ops).take 10
    ∧ (add_sync_operation ops op).length ≤ 10
    ∧ (add_sync_operation ops op).head? = some op := by
  have h1 : add_sync_operation ops op = (op :: ops).take 10 := by
    unfold add_sync_operation
    split
    · rfl
    · next h => exact (List.take_of_length_le (Nat.le_of_not_lt h)).symm
  refine ⟨h1, ?_, ?_⟩
  · rw [h1, List.length_take]
    omega
  · rw [h1]
    show ((op :: ops).take (9 + 1)).head? = some op
    rw [List.take_succ_cons]
    rfl

/-- Counterexample for C4: with the origin remote missing, `push_origin`
returns an `Err` result (the `?` on `find_remote` propagates), not a
SyncOperation value with Error outcome. -/
theorem push_missing_remote_cex :
    push_origin repoNoOrigin = Except.error (GitError.Git2 ("remote origin not found"))
    ∧ isOkE (push_origin repoNoOrigin) = false := ⟨rfl, rfl⟩

/-- C4 (amended): when the origin remote exists and HEAD is resolvable
but the transport fails (unreachable remote), `push_origin` returns a
SyncOperation value with Error outcome and never panics; when the origin
remote is missing, it instead propagates an `Err(GitError)` result. -/
theorem push_error_semantics :
    (∀ r : SyncRepo, r.originUrl = none →
        push_origin r = Except.error (GitError.Git2 ("remote origin not found")))
  ∧ (∀ (r : SyncRepo) (u : String) (l : Nat),
        r.originUrl = some u → r.headOid = some l → r.pushTransportOk = false →
        push_origin r = Except.ok
          { operation_type := .Push, status := .Error,
            message := "Failed to push: " ++ r.pushErr, timestamp := r.now }) := by
  constructor
  · intro r h
    unfold push_origin
    rw [h]
  · intro r u l hu hl hp
    unfold push_origin
    rw [hu, hl, hp]
    simp

/-- Witness for C4's amended theorem at the two concrete repositories:
missing origin propagates an error value, unreachable origin yields an
Error operation. -/
theorem push_error_semantics_witness :
    push_origin repoNoOrigin = Except.error (GitError.Git2 ("remote origin not found"))
    ∧ push_origin repoUnreachable = Except.ok
        { operation_type := .Push, status := .Error,
          message := "Failed to push: " ++ "connection refused", timestamp := 0 } :=
  ⟨push_error_semantics.1 repoNoOrigin rfl,
   push_error_semantics.2 repoUnreachable ("file:///tmp/origin") 2 rfl rfl rfl⟩

/-- C6: when the local tip equals the remote-tracking tip after a
successful fetch, pull (with or without rebase) returns a Success
operation whose message contains "up to date" and leaves the repository
state unchanged (no new commit, no further action). -/
theorem pull_up_to_date (rb : Bool) (r : SyncRepo) (l : Nat)
    (hfetch : statusIsError (fetch_origin r).status = false)
    (hhead : r.headOid = some l)
    (htrack : lookupA r.remoteBranches ("origin/" ++ r.headBranch) = some l) :
    pull_origin rb r = Except.ok
      ({ operation_type := .Pull, status := .Success,
         message := "Already up to date", timestamp := r.now }, r)
    ∧ ∃ a b, "Already up to date" = a ++ "up to date" ++ b := by
  constructor
  · unfold pull_origin
    simp only [hfetch, Bool.false_eq_true, if_false, hhead, htrack, if_true,
      eq_self_iff_true]
  · exact ⟨"Already ", "", by decide⟩

/-- Witness for C6 at `repoUpToDate` (remote tip equals local tip 2),
with and without rebase. -/
theorem pull_up_to_date_witness :
    pull_origin true repoUpToDate = Except.ok
      ({ operation_type := .Pull, status := .Success,
         message := "Already up to date", timestamp := 0 }, repoUpToDate)
    ∧ pull_origin false repoUpToDate = Except.ok
      ({ operation_type := .Pull, status := .Success,
         message := "Already up to date", timestamp := 0 }, repoUpToDate) :=
  ⟨(pull_up_to_date true repoUpToDate 2 rfl rfl rfl).1,
   (pull_up_to_date false repoUpToDate 2 rfl rfl rfl).1⟩

/-- C5: pull without rebase, after a successful fetch with distinct
tips: when the three-way merge of the merge-base, local and remote trees
has conflicts, pull returns an Error operation whose message contains
"Merge conflicts detected" and leaves the repository unchanged (no
commit applied); when it has none, pull commits the merged tree with
exactly the two parents local tip and remote tip and advances HEAD to
that commit. -/
theorem pull_merge_conflict_or_commit (r : SyncRepo) (l ro mb : Nat)
    (lc rc bc : CommitObj)
    (hfetch : statusIsError (fetch_origin r).status = false)
    (hhead : r.headOid = some l)
    (htrack : lookupA r.remoteBranches ("origin/" ++ r.headBranch) = some ro)
    (hne : l ≠ ro)
    (hrc : lookupA r.commits ro = some rc)
    (hlc : lookupA r.commits l = some lc)
    (hmb : mergeBase r l ro = some mb)
    (hbc : lookupA r.commits mb = some bc) :
    ((merge_trees bc.tree lc.tree rc.tree).2 = true →
        pull_origin false r = Except.ok
          ({ operation_type := .Pull, status := .Error,
             message := "Merge failed: Git error: Merge conflicts detected",
             timestamp := r.now }, r)
        ∧ ∃ a b, "Merge failed: Git error: Merge conflicts detected" =
            a ++ "Merge conflicts detected" ++ b)
  ∧ ((merge_trees bc.tree lc.tree rc.tree).2 = false →
        pull_origin false r = Except.ok
          ({ operation_type := .Pull, status := .Success,
             message := "Successfully merged remote changes", timestamp := r.now },
           { r with
             commits := (freshOid r,
               { parents := [l, ro], tree := (merge_trees bc.tree lc.tree rc.tree).1 })
               :: r.commits,
             headOid := some (freshOid r) })) := by
  constructor
  · intro hconf
    have hpm : perform_merge r ro = Except.error (GitError.Other ("Merge conflicts detected")) := by
      unfold perform_merge
      simp only [hrc, hhead, hlc, hmb, hbc]
      rw [if_pos hconf]
    constructor
    · unfold pull_origin
      simp only [hfetch, Bool.false_eq_true, if_false, hhead, htrack, if_neg hne,
        Bool.false_eq_true, hpm]
      rfl
    · exact ⟨"Merge failed: Git error: ", "", by decide⟩
  · intro hconf
    have hpm : perform_merge r ro = Except.ok
        { r with
          commits := (freshOid r,
            { parents := [l, ro], tree := (merge_trees bc.tree lc.tree rc.tree).1 })
            :: r.commits,
          headOid := some (freshOid r) } := by
      unfold perform_merge
      simp only [hrc, hhead, hlc, hmb, hbc]
      rw [if_neg (by rw [hconf]; exact Bool.false_ne_true)]
    unfold pull_origin
    simp only [hfetch, Bool.false_eq_true, if_false, hhead, htrack, if_neg hne,
      Bool.false_eq_true, hpm]

/-- Witness for C5: the conflicting pair `repoBase` yields an unchanged
state and an Error operation mentioning the conflict; the conflict-free
`repoClean` yields a merge commit (id 4) with parents local tip 2 and
remote tip 3. -/
theorem pull_merge_conflict_or_commit_witness :
    pull_origin false repoBase = Except.ok
      ({ operation_type := .Pull, status := .Error,
         message := "Merge failed: Git error: Merge conflicts detected",
         timestamp := 0 }, repoBase)
    ∧ pull_origin false repoClean = Except.ok
      ({ operation_type := .Pull, status := .Success,
         message := "Successfully merged remote changes", timestamp := 0 },
       { repoClean with
         commits := (4, { parents := [2, 3], tree := [("f", 2), ("g", 9)] })
           :: repoClean.commits,
         headOid := some 4 }) :=
  ⟨((pull_merge_conflict_or_commit repoBase 2 3 1
      { parents := [1], tree := [("f", 2)] }
      { parents := [1], tree := [("f", 3)] }
      { parents := [], tree := [("f", 1)] }
      rfl rfl rfl (by decide) rfl rfl (by decide) rfl).1 (by decide)).1,
   (pull_merge_conflict_or_commit repoClean 2 3 1
      { parents := [1], tree := [("f", 2)] }
      { parents := [1], tree := [("f", 1), ("g", 9)] }
      { parents := [], tree := [("f", 1)] }
      rfl rfl rfl (by decide) rfl rfl (by decide) rfl).2 (by decide)⟩

theorem walkN_succ (r : SyncRepo) : ∀ (k : Nat) (s : List Nat),
    walkN r (k + 1) s = stepSet r (walkN r k s)
  | 0, _ => rfl
  | k + 1, s => walkN_succ r k (stepSet r s)

theorem mem_stepSet_self {r : SyncRepo} {s : List Nat} {x : Nat} (h : x ∈ s) :
    x ∈ stepSet r s := by
  unfold stepSet
  rw [List.mem_dedup, List.mem_append]
  exact Or.inl h

theorem mem_stepSet_parent {r : SyncRepo} {s : List Nat} {b c : Nat}
    (hb : b ∈ s) (hc : c ∈ parentsOf r b) : c ∈ stepSet r s := by
  unfold stepSet
  rw [List.mem_dedup, List.mem_append]
  refine Or.inr ?_
  rw [List.mem_flatten]
  exact ⟨parentsOf r b, List.mem_map_of_mem _ hb, hc⟩

theorem mem_stepSet_cases {r : SyncRepo} {s : List Nat} {x : Nat}
    (h : x ∈ stepSet r s) : x ∈ s ∨ ∃ b ∈ s, x ∈ parentsOf r b := by
  unfold stepSet at h
  rw [List.mem_dedup, List.mem_append] at h
  cases h with
  | inl h => exact Or.inl h
  | inr h =>
    rw [List.mem_flatten] at h
    obtain ⟨l, hl, hx⟩ := h
    rw [List.mem_map] at hl
    obtain ⟨b, hb, rfl⟩ := hl
    exact Or.inr ⟨b, hb, hx⟩

theorem reaches_trans {r : SyncRepo} {a b c : Nat}
    (h1 : Reaches r a b) (h2 : Reaches r b c) : Reaches r a c := by
  induction h2 with
  | refl => exact h1
  | tail _ hm ih => exact Reaches.tail ih hm

theorem walkN_sound {r : SyncRepo} : ∀ (k : Nat) (s : List Nat) (x : Nat),
    x ∈ walkN r k s → ∃ y ∈ s, Reaches r y x
  | 0, _, x, h => ⟨x, h, Reaches.refl x⟩
  | k + 1, s, x, h => by
    obtain ⟨y, hy, hr⟩ := walkN_sound k (stepSet r s) x h
    cases mem_stepSet_cases hy with
    | inl hys => exact ⟨y, hys, hr⟩
    | inr hex =>
      obtain ⟨b, hb, hyp⟩ := hex
      exact ⟨b, hb, reaches_trans (Reaches.tail (Reaches.refl b) hyp) hr⟩

theorem reaches_toN {r : SyncRepo} {a b : Nat} (h : Reaches r a b) :
    ∃ n, ReachesN r n a b := by
  induction h with
  | refl => exact ⟨0, ReachesN.refl _⟩
  | tail _ hm ih =>
    obtain ⟨n, hn⟩ := ih
    exact ⟨n + 1, ReachesN.tail hn hm⟩

theorem parentsOf_lt {r : SyncRepo} (hw : ParentsDecreasing r) {b c : Nat}
    (hc : c ∈ parentsOf r b) : c < b := by
  unfold parentsOf at hc
  cases hlk : lookupA r.commits b with
  | none => rw [hlk] at hc; simp at hc
  | some co =>
    rw [hlk] at hc
    simp only [Option.map_some', Option.getD_some] at hc
    exact hw (b, co) (lookupA_mem hlk) c hc

theorem reachesN_le {r : SyncRepo} (hw : ParentsDecreasing r) :
    ∀ {n a b : Nat}, ReachesN r n a b → b + n ≤ a := by
  intro n a b h
  induction h with
  | refl => omega
  | tail _ hm ih =>
    have := parentsOf_lt hw hm
    omega

theorem reachesN_mem_walkN {r : SyncRepo} :
    ∀ {n a b : Nat}, ReachesN r n a b → b ∈ walkN r n [a] := by
  intro n a b h
  induction h with
  | refl a => exact List.mem_singleton_self a
  | tail _ hm ih =>
    rw [walkN_succ]
    exact mem_stepSet_parent ih hm

theorem walkN_mono_step {r : SyncRepo} {k : Nat} {s : List Nat} {x : Nat}
    (h : x ∈ walkN r k s) : x ∈ walkN r (k + 1) s := by
  rw [walkN_succ]
  exact mem_stepSet_self h

theorem walkN_mono {r : SyncRepo} {s : List Nat} {x : Nat} {k m : Nat}
    (hkm : k ≤ m) (h : x ∈ walkN r k s) : x ∈ walkN r m s := by
  induction hkm with
  | refl => exact h
  | step _ ih => exact walkN_mono_step ih

theorem walkList_nodup (r : SyncRepo) (l : Nat) : (walkList r l).Nodup := by
  unfold walkList
  cases hl : l + 1 with
  | zero => exact absurd hl (by omega)
  | succ k => rw [walkN_succ]; exact List.nodup_dedup _

/-- C7: with a HEAD commit and no remote tracking branch for the current
branch, `get_ahead_behind_counts` reports ahead equal to the number of
commits reachable from the local HEAD and behind equal to zero. -/
theorem ahead_behind_no_tracking (r : SyncRepo) (l : Nat)
    (hw : ParentsDecreasing r) (hh : r.headOid = some l)
    (hn : lookupA r.remoteBranches ("origin/" ++ r.headBranch) = none) :
    get_ahead_behind_counts r = Except.ok (Set.ncard { x | Reaches r l x }, 0) := by
  unfold get_ahead_behind_counts
  rw [hh, hn]
  have hset : { x | Reaches r l x } = ((walkList r l).toFinset : Set Nat) := by
    ext x
    simp only [Set.mem_setOf_eq, Finset.mem_coe, List.mem_toFinset]
    constructor
    · intro hx
      obtain ⟨n, hn'⟩ := reaches_toN hx
      have hle : n ≤ l := by
        have := reachesN_le hw hn'
        omega
      have hmem := reachesN_mem_walkN hn'
      unfold walkList
      exact walkN_mono (by omega) hmem
    · intro hx
      unfold walkList at hx
      obtain ⟨y, hy, hr⟩ := walkN_sound (l + 1) [l] x hx
      rw [List.mem_singleton] at hy
      subst hy
      exact hr
  rw [hset, Set.ncard_coe_Finset,
    List.toFinset_card_of_nodup (walkList_nodup r l)]

/-- Witness for C7 at `repoNoTracking` (two commits, no tracking ref). -/
theorem ahead_behind_no_tracking_witness :
    get_ahead_behind_counts repoNoTracking =
      Except.ok (Set.ncard { x | Reaches repoNoTracking 2 x }, 0) :=
  ahead_behind_no_tracking repoNoTracking 2 (by decide) rfl rfl
